import Mathlib

/-!
Verification of the ralphcity-ui backend orchestration core.

The definitions below are a shallow embedding of the Rust sources:
  * `src/backend/src/ralph/mod.rs`  — the ralph process manager
    (`RalphManager.run`, `handle_process_exit`, `cancel`, the registry maps),
  * `src/backend/src/git/mod.rs`    — clone error classification and the
    progress-reporting clone (`classify_clone_error`, `clone_with_progress`),
  * `src/backend/src/api/repos.rs`  — repo-name extraction and the SSE clone
    progress stream (`extract_repo_name`, `clone_with_progress_sse`).

Identifiers (`Uuid`) are modelled as `Nat`.  The two registry hash maps are
modelled as association lists with hash-map semantics (insert replaces,
lookup finds the unique binding).  Database writes and websocket broadcasts
are modelled as an emitted list of `Effect`s; the database and the
connection manager are external collaborators, so only the calls the
orchestrator makes to them are recorded.  OS-level facts (the spawned child,
its exit status, signals) enter the model as explicit parameters.
-/

namespace Ralphcity

/-- Uuids are modelled as naturals. -/
abbrev Uuid := Nat

/-- Modelled from the spec: the session status enum lives in
`src/backend/src/db/models.rs`, which is not among the provided sources; the
spec gives the lifecycle `Idle → Running → {Completed | Error | Cancelled}`. -/
inductive SessionStatus where
  | Idle
  | Running
  | Completed
  | Error
  | Cancelled
deriving DecidableEq

/-- Modelled from the spec: the output stream tag (`stdout`|`stderr`) from
`src/backend/src/db/models.rs`, which is not among the provided sources. -/
inductive OutputStream where
  | Stdout
  | Stderr
deriving DecidableEq

/-- Active process handle with metadata (ralph/mod.rs, `ProcessHandle`).
The OS child itself is external; only the metadata the registry logic
reads is kept. -/
structure ProcessHandle where
  repo_id : Uuid
deriving DecidableEq

/-- Inner state for RalphManager (ralph/mod.rs, `RalphManagerInner`):
`processes` maps session_id to the active handle, `active_repos` maps
repo_id to the session_id occupying it. -/
structure RalphManagerInner where
  processes : List (Uuid × ProcessHandle)
  active_repos : List (Uuid × Uuid)
deriving DecidableEq

/-- Hash-map lookup over the association-list model. -/
def mapLookup {α : Type} (k : Nat) : List (Nat × α) → Option α
  | [] => none
  | (k2, v) :: rest => if k2 = k then some v else mapLookup k rest

/-- Hash-map removal over the association-list model. -/
def mapRemove {α : Type} (k : Nat) : List (Nat × α) → List (Nat × α)
  | [] => []
  | (k2, v) :: rest => if k2 = k then mapRemove k rest else (k2, v) :: mapRemove k rest

/-- Hash-map insertion over the association-list model (replaces any
existing binding of the key, as `HashMap::insert` does). -/
def mapInsert {α : Type} (k : Nat) (v : α) (l : List (Nat × α)) : List (Nat × α) :=
  (k, v) :: mapRemove k l

/-- Errors of the ralph manager (ralph/mod.rs, `RalphError`). -/
inductive RalphError where
  | RepoBusy (repo_id : Uuid)
  | SessionAlreadyRunning (session_id : Uuid)
  | SpawnFailed (detail : String)
  | NotRunning (session_id : Uuid)
  | NotFound (message : String) (help_steps : List String)
deriving DecidableEq

/-- Outcome of the OS spawn call, an external event consumed by `run`. -/
inductive SpawnOutcome where
  | ok
  | notFound
  | failed (detail : String)
deriving DecidableEq

/-- Exit status of the child process, an external event consumed by
`handle_process_exit`.  `ExitStatus::success()` holds exactly for exit
code zero; death by signal is never a success. -/
inductive ExitStatus where
  | exitCode (code : Int)
  | signal (sig : Nat)
deriving DecidableEq

def ExitStatus.success : ExitStatus → Bool
  | .exitCode 0 => true
  | .exitCode _ => false
  | .signal _ => false

/-- Calls the orchestrator makes to its external collaborators, in order:
database writes (`persist…`) and websocket broadcasts (`broadcast…`). -/
inductive Effect where
  | persistStatus (session_id : Uuid) (status : SessionStatus)
  | broadcastStatus (session_id : Uuid) (status : SessionStatus)
  | persistOutput (session_id : Uuid) (stream : OutputStream) (content : String)
  | broadcastOutput (session_id : Uuid) (stream : OutputStream) (content : String)
deriving DecidableEq

/-- ralph/mod.rs `is_repo_busy`: whether `active_repos` contains the repo. -/
def is_repo_busy (s : RalphManagerInner) (repo_id : Uuid) : Bool :=
  (mapLookup repo_id s.active_repos).isSome

/-- ralph/mod.rs `is_session_running`: whether `processes` contains the
session. -/
def is_session_running (s : RalphManagerInner) (session_id : Uuid) : Bool :=
  (mapLookup session_id s.processes).isSome

/-- ralph/mod.rs `get_active_session_for_repo`. -/
def get_active_session_for_repo (s : RalphManagerInner) (repo_id : Uuid) : Option Uuid :=
  mapLookup repo_id s.active_repos

/-- Help steps attached to the `NotFound` spawn error (ralph/mod.rs 129-134). -/
def ralphNotFoundHelpSteps : List String :=
  ["Install ralph: cargo install ralph",
   "Or download from release page",
   "Ensure ~/.cargo/bin is in your PATH",
   "Restart your terminal after installation"]

/-- ralph/mod.rs `RalphManager::run` up to its synchronous return: check the
two exclusivity maps, spawn (outcome supplied externally), register the
process in both maps, persist status `Running` and broadcast it.  Returns
the call result, the registry state after the call, and the emitted
database/broadcast effects. -/
def run (s : RalphManagerInner) (session_id repo_id : Uuid) (spawn : SpawnOutcome) :
    Except RalphError Unit × RalphManagerInner × List Effect :=
  if is_repo_busy s repo_id then
    (.error (.RepoBusy repo_id), s, [])
  else if is_session_running s session_id then
    (.error (.SessionAlreadyRunning session_id), s, [])
  else
    match spawn with
    | .notFound =>
        (.error (.NotFound ("ralph CLI not found in PATH") ralphNotFoundHelpSteps), s, [])
    | .failed e => (.error (.SpawnFailed e), s, [])
    | .ok =>
        (.ok (),
         { processes := mapInsert session_id { repo_id := repo_id } s.processes,
           active_repos := mapInsert repo_id session_id s.active_repos },
         [.persistStatus session_id .Running, .broadcastStatus session_id .Running])

/-- ralph/mod.rs `RalphManager::handle_process_exit`: remove the session
from `processes`; when a handle was present also remove the repo from
`active_repos` and wait for the child (the wait outcome is the external
parameter `wait`); map exit success to `Completed` and everything else to
`Error`; persist and broadcast the final status. -/
def handle_process_exit (s : RalphManagerInner) (session_id repo_id : Uuid)
    (wait : Option ExitStatus) : RalphManagerInner × List Effect :=
  match mapLookup session_id s.processes with
  | some _ =>
      let s2 : RalphManagerInner :=
        { processes := mapRemove session_id s.processes,
          active_repos := mapRemove repo_id s.active_repos }
      let final_status :=
        match wait with
        | some st => if st.success then SessionStatus.Completed else SessionStatus.Error
        | none => SessionStatus.Error
      (s2, [.persistStatus session_id final_status, .broadcastStatus session_id final_status])
  | none =>
      (s, [.persistStatus session_id .Error, .broadcastStatus session_id .Error])

/-- ralph/mod.rs `RalphManager::cancel`: look up the live handle (reject
with `NotRunning` if absent), signal the process group (an OS effect not
recorded here), remove the session from both maps, persist `Cancelled`
and broadcast it. -/
def cancel (s : RalphManagerInner) (session_id : Uuid) :
    Except RalphError Unit × RalphManagerInner × List Effect :=
  match mapLookup session_id s.processes with
  | none => (.error (.NotRunning session_id), s, [])
  | some handle =>
      (.ok (),
       { processes := mapRemove session_id s.processes,
         active_repos := mapRemove handle.repo_id s.active_repos },
       [.persistStatus session_id .Cancelled, .broadcastStatus session_id .Cancelled])

/-- One reader task of ralph/mod.rs `run` (lines 186-241): for every line of
its stream, first persist the output record, then broadcast it. -/
def reader_loop (session_id : Uuid) (stream : OutputStream) : List String → List Effect
  | [] => []
  | line :: rest =>
      .persistOutput session_id stream line ::
      .broadcastOutput session_id stream line ::
      reader_loop session_id stream rest

/-! ## git module (src/backend/src/git/mod.rs) -/

/-- The error classes of the underlying git library that
`classify_clone_error` discriminates on (git2::ErrorClass).  The source
match only distinguishes `Ssh`, `Http` and `Net`; every other class falls
into the wildcard arm, so the remaining classes are represented by a few
named ones plus `other`. -/
inductive Git2ErrorClass where
  | ssh
  | http
  | net
  | os
  | invalid
  | repository
  | config
  | ssl
  | callback
  | other
deriving DecidableEq

/-- A git2 error: its class and its message. -/
structure Git2Error where
  errorClass : Git2ErrorClass
  message : String
deriving DecidableEq

/-- Clone-specific errors with actionable help steps (git/mod.rs,
`CloneError`). -/
inductive CloneError where
  | SshAuthFailed (message : String) (help_steps : List String)
  | HttpsAuthFailed (message : String) (help_steps : List String)
  | NetworkError (message : String)
  | OperationFailed (message : String)
deriving DecidableEq

/-- Help steps attached to `SshAuthFailed` (git/mod.rs 58-62). -/
def sshHelpSteps : List String :=
  ["Ensure your SSH key is added to ssh-agent: ssh-add ~/.ssh/id_ed25519",
   "Verify your key is added to GitHub: ssh -T git@github.com",
   "If using a passphrase, the ssh-agent must have the key unlocked"]

/-- Help steps attached to `HttpsAuthFailed` (git/mod.rs 66-69). -/
def httpsHelpSteps : List String :=
  ["HTTPS cloning requires a Personal Access Token (PAT)",
   "Create a PAT at GitHub Settings > Developer Settings > Tokens",
   "Use the PAT as password when prompted, or configure git credential helper"]

/-- git/mod.rs `classify_clone_error`: map the library error class to a
`CloneError`, attaching the fixed help steps for the two auth classes. -/
def classify_clone_error (err : Git2Error) : CloneError :=
  match err.errorClass with
  | .ssh => .SshAuthFailed err.message sshHelpSteps
  | .http => .HttpsAuthFailed err.message httpsHelpSteps
  | .net => .NetworkError err.message
  | _ => .OperationFailed err.message

/-- Clone progress snapshot (git/mod.rs, `CloneProgress`). -/
structure CloneProgress where
  received_objects : Nat
  total_objects : Nat
  received_bytes : Nat
  indexed_objects : Nat
  total_deltas : Nat
  indexed_deltas : Nat
deriving DecidableEq

/-- Capacity of the bounded progress channel
(api/repos.rs 353: `mpsc::channel::<CloneProgress>(32)`). -/
def channelCapacity : Nat := 32

/-- `mpsc::Sender::try_send` on the bounded channel, modelled on the queue of
pending snapshots: enqueue when below capacity, silently drop otherwise. -/
def trySend (q : List CloneProgress) (p : CloneProgress) : List CloneProgress :=
  if q.length < channelCapacity then q ++ [p] else q

/-- The transfer-progress callback installed by `clone_with_progress`
(git/mod.rs 438-451): push the snapshot with `try_send` and return `true`
(continue cloning) unconditionally. -/
def transferCallback (q : List CloneProgress) (p : CloneProgress) :
    List CloneProgress × Bool :=
  (trySend q p, true)

/-- Run the transfer callback over the whole sequence of snapshots the
transfer produces, collecting the channel contents and every callback
return value. -/
def runTransferCallbacks : List CloneProgress → List CloneProgress →
    List CloneProgress × List Bool
  | q, [] => (q, [])
  | q, p :: rest =>
      let step := transferCallback q p
      let next := runTransferCallbacks step.1 rest
      (next.1, step.2 :: next.2)

/-- git/mod.rs `GitManager::clone_with_progress`: perform the clone (its
raw outcome is the external parameter `cloneResult`), feeding each progress
snapshot through the callback into the bounded channel, and classify a
failing outcome with `classify_clone_error`.  Returns the clone result and
the channel contents left for the consumer. -/
def clone_with_progress (snapshots : List CloneProgress)
    (cloneResult : Except Git2Error Unit) :
    Except CloneError Unit × List CloneProgress :=
  let cb := runTransferCallbacks [] snapshots
  (cloneResult.mapError classify_clone_error, cb.1)

/-! ## repos API (src/backend/src/api/repos.rs) -/

/-- Equality of `Except` values is decidable componentwise. -/
instance {ε α : Type} [DecidableEq ε] [DecidableEq α] : DecidableEq (Except ε α) :=
  fun x y =>
    match x, y with
    | .ok a, .ok b =>
        if h : a = b then isTrue (by rw [h]) else isFalse (fun hc => h (Except.ok.inj hc))
    | .error a, .error b =>
        if h : a = b then isTrue (by rw [h]) else isFalse (fun hc => h (Except.error.inj hc))
    | .ok _, .error _ => isFalse (fun hc => nomatch hc)
    | .error _, .ok _ => isFalse (fun hc => nomatch hc)

/-- One stripping pass of `trimEndMatches`, with explicit fuel so the
function is structurally recursive (each pass removes at least one
character, so `s.length` passes always suffice). -/
def trimEndMatchesAux (pat : List Char) : Nat → List Char → List Char
  | 0, s => s
  | fuel + 1, s =>
      if pat ≠ [] ∧ pat.length ≤ s.length ∧ s.drop (s.length - pat.length) = pat then
        trimEndMatchesAux pat fuel (s.take (s.length - pat.length))
      else s

/-- Rust `str::trim_end_matches`: repeatedly strip the suffix `pat` from
the end of `s` while it matches. -/
def trimEndMatches (pat s : List Char) : List Char :=
  trimEndMatchesAux pat s.length s

/-- Rust `str::rsplit(sep).next()`: the segment after the last occurrence
of `sep` (the whole string when `sep` does not occur). -/
def lastSegment (sep : Char) (s : List Char) : List Char :=
  (s.splitOn sep).getLastD []

/-- api/repos.rs `extract_repo_name`: strip trailing slashes, then trailing
`.git` suffixes; take the segment after the last slash, falling back to the
segment after the last colon when the slash split yields nothing new;
reject an empty or slash-containing result. -/
def extract_repo_name (url : String) : Except String String :=
  let u1 := trimEndMatches ['/'] url.data
  let u2 := trimEndMatches ['.', 'g', 'i', 't'] u1
  let n1 := lastSegment '/' u2
  let n2 := if n1 ≠ [] ∧ n1 ≠ u2 then n1 else lastSegment ':' u2
  if n2 ≠ [] ∧ '/' ∉ n2 then .ok (String.mk n2)
  else .error ("Could not extract repository name from URL")

/-- A repository record as the clone path inserts and reports it
(db/mod.rs `insert_repo` returns path and name; the generated id and
timestamps are external). -/
structure Repo where
  path : String
  name : String
deriving DecidableEq

/-- SSE event types for clone progress (api/repos.rs, `CloneEvent`). -/
inductive CloneEvent where
  | progress (p : CloneProgress)
  | complete (repo : Repo) (message : String)
  | error (message : String) (help_steps : List String)
deriving DecidableEq

/-- An event after which the stream ends: `complete` or `error`. -/
def CloneEvent.isTerminal : CloneEvent → Bool
  | .progress _ => false
  | .complete _ _ => true
  | .error _ _ => true

def CloneEvent.isComplete : CloneEvent → Bool
  | .complete _ _ => true
  | .progress _ => false
  | .error _ _ => false

/-- Outcome of awaiting the spawned blocking clone task
(`clone_handle.await`): the task returned a clone result, or the task
itself failed (panicked / was aborted). -/
inductive JoinOutcome where
  | ok (result : Except CloneError Unit)
  | panicked (message : String)
deriving DecidableEq

/-- api/repos.rs 410-423: the message and help steps extracted from each
`CloneError` variant for the terminal error event. -/
def cloneErrorMessageSteps : CloneError → String × List String
  | .SshAuthFailed message help_steps => (message, help_steps)
  | .HttpsAuthFailed message help_steps => (message, help_steps)
  | .NetworkError message => ("Network error: " ++ message, [])
  | .OperationFailed message => ("Clone failed: " ++ message, [])

/-- api/repos.rs `clone_with_progress_sse`, stream body after
pre-validation (lines 363-437): relay every drained progress snapshot as a
`progress` event, then, once the channel closes, emit exactly one final
event from the task outcome — `complete` when the clone and the database
insertion both succeeded, `error` otherwise.  The insertion outcome `ins`
is the external database collaborator's answer, consulted only on clone
success. -/
def cloneStreamEvents (drained : List CloneProgress) (task : JoinOutcome)
    (ins : Except String Repo) (destDisplay : String) : List CloneEvent :=
  drained.map CloneEvent.progress ++
    [match task with
     | .ok (.ok ()) =>
         match ins with
         | .ok repo => .complete repo ("Cloned to " ++ destDisplay)
         | .error e => .error ("Failed to save repo to database: " ++ e) []
     | .ok (.error ce) => .error (cloneErrorMessageSteps ce).1 (cloneErrorMessageSteps ce).2
     | .panicked m => .error ("Clone task panicked: " ++ m) []]

/-! ## Interleaved execution of `run` (ralph/mod.rs 86-156)

`RalphManager::run` touches the shared registry in three separate lock
acquisitions: a read lock for `is_repo_busy`, a read lock for
`is_session_running`, and — after spawning the child — a write lock that
inserts into both maps.  The small-step model below has one program point
per lock acquisition plus one for the spawn; a schedule interleaves the
steps of two concurrent `run` calls. -/

inductive RunPc where
  | checkRepo
  | checkSession
  | spawnChild
  | register
  | finished
deriving DecidableEq

/-- An in-flight `run` call: its arguments, its program point, and its
result once it returned. -/
structure RunTask where
  session_id : Uuid
  repo_id : Uuid
  pc : RunPc
  result : Option (Except RalphError Unit)
deriving DecidableEq

/-- One atomic step of an in-flight `run` call (one lock acquisition, or
the lock-free spawn).  The spawn is assumed to succeed, matching the
scenario of the claim. -/
def runStep (s : RalphManagerInner) (t : RunTask) : RalphManagerInner × RunTask :=
  match t.pc with
  | .checkRepo =>
      if is_repo_busy s t.repo_id then
        (s, { t with pc := .finished, result := some (.error (.RepoBusy t.repo_id)) })
      else (s, { t with pc := .checkSession })
  | .checkSession =>
      if is_session_running s t.session_id then
        (s, { t with pc := .finished, result := some (.error (.SessionAlreadyRunning t.session_id)) })
      else (s, { t with pc := .spawnChild })
  | .spawnChild => (s, { t with pc := .register })
  | .register =>
      ({ processes := mapInsert t.session_id { repo_id := t.repo_id } s.processes,
         active_repos := mapInsert t.repo_id t.session_id s.active_repos },
       { t with pc := .finished, result := some (.ok ()) })
  | .finished => (s, t)

/-- Run two concurrent `run` calls under a schedule: `true` steps the
first task, `false` the second. -/
def runTwo : RalphManagerInner → RunTask → RunTask → List Bool →
    RalphManagerInner × RunTask × RunTask
  | s, a, b, [] => (s, a, b)
  | s, a, b, true :: rest =>
      let p := runStep s a
      runTwo p.1 p.2 b rest
  | s, a, b, false :: rest =>
      let p := runStep s b
      runTwo p.1 a p.2 rest

/-! ## Registry invariants -/

/-- Mutual consistency of the two registry maps: every `active_repos`
entry points to a live handle on that repo, and every live handle's repo
points back to its session. -/
def Consistent (s : RalphManagerInner) : Prop :=
  (∀ p ∈ s.active_repos,
      Option.map ProcessHandle.repo_id (mapLookup p.2 s.processes) = some p.1) ∧
  (∀ q ∈ s.processes, mapLookup q.2.repo_id s.active_repos = some q.1)

/-- The exclusivity invariant: at most one live session per repository. -/
def ExclusivePerRepo (s : RalphManagerInner) : Prop :=
  ∀ p ∈ s.processes, ∀ q ∈ s.processes, p.2.repo_id = q.2.repo_id → p.1 = q.1

instance (s : RalphManagerInner) : Decidable (Consistent s) := by
  unfold Consistent
  infer_instance

instance (s : RalphManagerInner) : Decidable (ExclusivePerRepo s) := by
  unfold ExclusivePerRepo
  infer_instance

/-! ## Association-map lemmas -/

theorem mapLookup_mem {α : Type} {k : Nat} {v : α} :
    ∀ {l : List (Nat × α)}, mapLookup k l = some v → (k, v) ∈ l
  | [], h => by simp [mapLookup] at h
  | (k2, w) :: rest, h => by
      by_cases hk : k2 = k
      · subst hk
        simp [mapLookup] at h
        subst h
        exact List.mem_cons_self _ _
      · simp [mapLookup, hk] at h
        exact List.mem_cons_of_mem _ (mapLookup_mem h)

theorem mem_mapRemove {α : Type} {k : Nat} {p : Nat × α} :
    ∀ {l : List (Nat × α)}, p ∈ mapRemove k l ↔ p ∈ l ∧ p.1 ≠ k := by
  intro l
  induction l with
  | nil => simp [mapRemove]
  | cons hd tl ih =>
      obtain ⟨k2, w⟩ := hd
      by_cases hk : k2 = k
      · rw [show mapRemove k ((k2, w) :: tl) = mapRemove k tl from by simp [mapRemove, hk]]
        rw [ih]
        simp only [List.mem_cons]
        constructor
        · rintro ⟨hp, hne⟩
          exact ⟨Or.inr hp, hne⟩
        · rintro ⟨hp | hp, hne⟩
          · subst hp
            exact absurd hk hne
          · exact ⟨hp, hne⟩
      · rw [show mapRemove k ((k2, w) :: tl) = (k2, w) :: mapRemove k tl from by
            simp [mapRemove, hk]]
        simp only [List.mem_cons, ih]
        constructor
        · rintro (hp | ⟨hp, hne⟩)
          · subst hp
            exact ⟨Or.inl rfl, hk⟩
          · exact ⟨Or.inr hp, hne⟩
        · rintro ⟨hp | hp, hne⟩
          · exact Or.inl hp
          · exact Or.inr ⟨hp, hne⟩

theorem mapLookup_mapRemove_self {α : Type} (k : Nat) :
    ∀ l : List (Nat × α), mapLookup k (mapRemove k l) = none
  | [] => rfl
  | (k2, w) :: rest => by
      by_cases hk : k2 = k
      · simp [mapRemove, hk, mapLookup_mapRemove_self k rest]
      · simp [mapRemove, hk, mapLookup, mapLookup_mapRemove_self k rest]

theorem mapLookup_mapRemove_ne {α : Type} {k j : Nat} (hne : k ≠ j) :
    ∀ l : List (Nat × α), mapLookup j (mapRemove k l) = mapLookup j l
  | [] => rfl
  | (k2, w) :: rest => by
      by_cases hk : k2 = k
      · subst hk
        simp [mapRemove, mapLookup, hne, mapLookup_mapRemove_ne hne rest]
      · simp [mapRemove, hk, mapLookup, mapLookup_mapRemove_ne hne rest]

theorem mapLookup_mapInsert_self {α : Type} (k : Nat) (v : α) (l : List (Nat × α)) :
    mapLookup k (mapInsert k v l) = some v := by
  simp [mapInsert, mapLookup]

theorem mapLookup_mapInsert_ne {α : Type} {k j : Nat} (hne : k ≠ j) (v : α)
    (l : List (Nat × α)) : mapLookup j (mapInsert k v l) = mapLookup j l := by
  simp [mapInsert, mapLookup, hne, mapLookup_mapRemove_ne hne l]

theorem mem_mapInsert {α : Type} {k : Nat} {v : α} {p : Nat × α} {l : List (Nat × α)} :
    p ∈ mapInsert k v l ↔ p = (k, v) ∨ (p ∈ l ∧ p.1 ≠ k) := by
  simp [mapInsert, List.mem_cons, mem_mapRemove]

/-! ## Invariant helper lemmas -/

theorem consistent_exclusive {s : RalphManagerInner} (h : Consistent s) :
    ExclusivePerRepo s := by
  intro p hp q hq hrepo
  have h1 := h.2 p hp
  have h2 := h.2 q hq
  rw [hrepo] at h1
  rw [h1] at h2
  exact Option.some.inj h2

theorem consistent_lookup_iff {s : RalphManagerInner} (h : Consistent s)
    (r sid : Uuid) :
    mapLookup r s.active_repos = some sid ↔
      Option.map ProcessHandle.repo_id (mapLookup sid s.processes) = some r := by
  constructor
  · intro hl
    exact h.1 (r, sid) (mapLookup_mem hl)
  · intro hl
    match hp : mapLookup sid s.processes with
    | none => rw [hp] at hl; simp at hl
    | some hdl =>
        rw [hp] at hl
        have hrep : hdl.repo_id = r := by simpa using hl
        have hmem := h.2 (sid, hdl) (mapLookup_mem hp)
        rw [← hrep]
        exact hmem

/-- Removing a session and its handle's repository from the two maps
together preserves mutual consistency. -/
theorem consistent_removePair {s : RalphManagerInner} {sid : Uuid}
    {hdl : ProcessHandle} (h : Consistent s)
    (hl : mapLookup sid s.processes = some hdl) :
    Consistent { processes := mapRemove sid s.processes,
                 active_repos := mapRemove hdl.repo_id s.active_repos } := by
  constructor
  · intro p hp
    obtain ⟨hpmem, hpne⟩ := mem_mapRemove.mp hp
    have h1 := h.1 p hpmem
    have hsid : p.2 ≠ sid := by
      intro he
      rw [he, hl] at h1
      have : hdl.repo_id = p.1 := by simpa using h1
      exact hpne this.symm
    simpa [mapLookup_mapRemove_ne (Ne.symm hsid)] using h1
  · intro q hq
    obtain ⟨hqmem, hqne⟩ := mem_mapRemove.mp hq
    have h2 := h.2 q hqmem
    have hrid : q.2.repo_id ≠ hdl.repo_id := by
      intro he
      have hs : mapLookup hdl.repo_id s.active_repos = some sid :=
        h.2 (sid, hdl) (mapLookup_mem hl)
      rw [he] at h2
      rw [h2] at hs
      exact hqne (Option.some.inj hs)
    simpa [mapLookup_mapRemove_ne (Ne.symm hrid)] using h2

/-- Successful registration of a fresh session/repo pair preserves mutual
consistency. -/
theorem consistent_insertPair {s : RalphManagerInner} {sid rid : Uuid}
    (h : Consistent s)
    (hrepo : mapLookup rid s.active_repos = none)
    (hsess : mapLookup sid s.processes = none) :
    Consistent { processes := mapInsert sid { repo_id := rid } s.processes,
                 active_repos := mapInsert rid sid s.active_repos } := by
  constructor
  · intro p hp
    rcases mem_mapInsert.mp hp with hnew | ⟨hpmem, hpne⟩
    · subst hnew
      simp [mapLookup_mapInsert_self]
    · have h1 := h.1 p hpmem
      have hsid : sid ≠ p.2 := by
        intro he
        rw [← he, hsess] at h1
        simp at h1
      simpa [mapLookup_mapInsert_ne hsid] using h1
  · intro q hq
    rcases mem_mapInsert.mp hq with hnew | ⟨hqmem, hqne⟩
    · subst hnew
      simp [mapLookup_mapInsert_self]
    · have h2 := h.2 q hqmem
      have hrid : rid ≠ q.2.repo_id := by
        intro he
        rw [← he, hrepo] at h2
        simp at h2
      simpa [mapLookup_mapInsert_ne hrid] using h2

/-- Exclusivity only constrains the process map, so it transfers along any
entry inclusion of process maps. -/
theorem exclusive_of_sub {s t : RalphManagerInner}
    (hsub : ∀ p ∈ t.processes, p ∈ s.processes) (h : ExclusivePerRepo s) :
    ExclusivePerRepo t := by
  intro p hp q hq hrepo
  exact h p (hsub p hp) q (hsub q hq) hrepo

theorem run_preserves_consistent {s : RalphManagerInner} (sid rid : Uuid)
    (sp : SpawnOutcome) (h : Consistent s) : Consistent (run s sid rid sp).2.1 := by
  cases hb : is_repo_busy s rid with
  | true => simpa [run, hb] using h
  | false =>
      cases hr : is_session_running s sid with
      | true => simpa [run, hb, hr] using h
      | false =>
          have hrn : mapLookup rid s.active_repos = none := by
            cases hmm : mapLookup rid s.active_repos with
            | none => rfl
            | some x =>
                rw [is_repo_busy, hmm] at hb
                simp at hb
          have hsn : mapLookup sid s.processes = none := by
            cases hmm : mapLookup sid s.processes with
            | none => rfl
            | some x =>
                rw [is_session_running, hmm] at hr
                simp at hr
          cases sp with
          | notFound => simpa [run, hb, hr] using h
          | failed e => simpa [run, hb, hr] using h
          | ok => simpa [run, hb, hr] using consistent_insertPair h hrn hsn

theorem exit_preserves_consistent {s : RalphManagerInner} {sid rid : Uuid}
    (w : Option ExitStatus) (h : Consistent s)
    (hmatch : ∀ hdl, mapLookup sid s.processes = some hdl → hdl.repo_id = rid) :
    Consistent (handle_process_exit s sid rid w).1 := by
  cases hp : mapLookup sid s.processes with
  | none => simpa [handle_process_exit, hp] using h
  | some hdl =>
      have hr := hmatch hdl hp
      have := consistent_removePair h hp
      rw [hr] at this
      simpa [handle_process_exit, hp] using this

theorem cancel_preserves_consistent {s : RalphManagerInner} (sid : Uuid)
    (h : Consistent s) : Consistent (cancel s sid).2.1 := by
  cases hp : mapLookup sid s.processes with
  | none => simpa [cancel, hp] using h
  | some hdl => simpa [cancel, hp] using consistent_removePair h hp

theorem exit_processes_sub {s : RalphManagerInner} (sid rid : Uuid)
    (w : Option ExitStatus) :
    ∀ p ∈ (handle_process_exit s sid rid w).1.processes, p ∈ s.processes := by
  intro p hp
  cases hl : mapLookup sid s.processes with
  | none =>
      simp only [handle_process_exit, hl] at hp
      exact hp
  | some hdl =>
      simp only [handle_process_exit, hl] at hp
      exact (mem_mapRemove.mp hp).1

theorem cancel_processes_sub {s : RalphManagerInner} (sid : Uuid) :
    ∀ p ∈ (cancel s sid).2.1.processes, p ∈ s.processes := by
  intro p hp
  cases hl : mapLookup sid s.processes with
  | none =>
      simp only [cancel, hl] at hp
      exact hp
  | some hdl =>
      simp only [cancel, hl] at hp
      exact (mem_mapRemove.mp hp).1

/-! ## Concrete states used by the witnesses -/

/-- A registry with session 1 running on repository 0. -/
def busyState : RalphManagerInner :=
  { processes := [(1, { repo_id := 0 })], active_repos := [(0, 1)] }

/-- The empty registry. -/
def emptyState : RalphManagerInner := { processes := [], active_repos := [] }

/-! ## Claims -/

/-- C1: whenever the active-repo registry already maps a repository to some
session, `run` for any session on that repository returns `RepoBusy` and
registers nothing; and the per-repository exclusivity invariant (at most
one live session per repository) holds in any consistent registry and is
preserved by `run`, by process-exit handling and by `cancel`. -/
theorem c1_repo_exclusivity (s : RalphManagerInner) (sid rid sid2 rid2 sid3 : Uuid)
    (spawn : SpawnOutcome) (w : Option ExitStatus) (hcons : Consistent s) :
    (∀ occ, mapLookup rid s.active_repos = some occ →
        run s sid rid spawn = (.error (.RepoBusy rid), s, [])) ∧
    ExclusivePerRepo s ∧
    ExclusivePerRepo (run s sid rid spawn).2.1 ∧
    ExclusivePerRepo (handle_process_exit s sid2 rid2 w).1 ∧
    ExclusivePerRepo (cancel s sid3).2.1 := by
  refine ⟨?_, consistent_exclusive hcons,
    consistent_exclusive (run_preserves_consistent sid rid spawn hcons),
    exclusive_of_sub (exit_processes_sub sid2 rid2 w) (consistent_exclusive hcons),
    exclusive_of_sub (cancel_processes_sub sid3) (consistent_exclusive hcons)⟩
  intro occ hl
  simp [run, is_repo_busy, hl]

theorem c1_repo_exclusivity_witness :
    Consistent busyState ∧
    mapLookup 0 busyState.active_repos = some 1 ∧
    run busyState 2 0 .ok = (.error (.RepoBusy 0), busyState, []) := by
  refine ⟨by decide, by decide, ?_⟩
  exact (c1_repo_exclusivity busyState 2 0 0 0 0 .ok none (by decide)).1 1 (by decide)

/-- C3: when the readers are done and the exit path runs while the session
still holds a live handle, the session is removed from both registry maps
and the final status — `Completed` exactly for a successful (zero) exit,
`Error` for a non-zero or abnormal exit — is persisted and then
broadcast. -/
theorem c3_exit_final_status (s : RalphManagerInner) (sid rid : Uuid)
    (w : Option ExitStatus) (hdl : ProcessHandle)
    (hl : mapLookup sid s.processes = some hdl) :
    mapLookup sid (handle_process_exit s sid rid w).1.processes = none ∧
    mapLookup rid (handle_process_exit s sid rid w).1.active_repos = none ∧
    (∀ e, w = some e → e.success = true →
        (handle_process_exit s sid rid w).2 =
          [.persistStatus sid .Completed, .broadcastStatus sid .Completed]) ∧
    (∀ e, w = some e → e.success = false →
        (handle_process_exit s sid rid w).2 =
          [.persistStatus sid .Error, .broadcastStatus sid .Error]) ∧
    (w = none →
        (handle_process_exit s sid rid w).2 =
          [.persistStatus sid .Error, .broadcastStatus sid .Error]) := by
  refine ⟨?_, ?_, ?_, ?_, ?_⟩
  · simp [handle_process_exit, hl, mapLookup_mapRemove_self]
  · simp [handle_process_exit, hl, mapLookup_mapRemove_self]
  · intro e he hs
    subst he
    simp [handle_process_exit, hl, hs]
  · intro e he hs
    subst he
    simp [handle_process_exit, hl, hs]
  · intro hw
    subst hw
    simp [handle_process_exit, hl]

theorem c3_exit_final_status_witness :
    mapLookup 1 busyState.processes = some { repo_id := 0 } ∧
    mapLookup 1 (handle_process_exit busyState 1 0 (some (.exitCode 0))).1.processes = none ∧
    (handle_process_exit busyState 1 0 (some (.exitCode 0))).2 =
      [.persistStatus 1 .Completed, .broadcastStatus 1 .Completed] ∧
    (handle_process_exit busyState 1 0 (some (.exitCode 7))).2 =
      [.persistStatus 1 .Error, .broadcastStatus 1 .Error] := by
  have h0 := c3_exit_final_status busyState 1 0 (some (.exitCode 0)) { repo_id := 0 } (by decide)
  have h7 := c3_exit_final_status busyState 1 0 (some (.exitCode 7)) { repo_id := 0 } (by decide)
  exact ⟨by decide, h0.1, h0.2.2.1 _ rfl (by decide), h7.2.2.2.1 _ rfl (by decide)⟩

/-- C5: `cancel` on a session with no live handle in the process registry
returns `NotRunning` and leaves the registry untouched, makes no database
write and broadcasts nothing. -/
theorem c5_cancel_not_running (s : RalphManagerInner) (sid : Uuid)
    (hl : mapLookup sid s.processes = none) :
    cancel s sid = (.error (.NotRunning sid), s, []) := by
  simp [cancel, hl]

theorem c5_cancel_not_running_witness :
    mapLookup 5 emptyState.processes = none ∧
    cancel emptyState 5 = (.error (.NotRunning 5), emptyState, []) :=
  ⟨by decide, c5_cancel_not_running emptyState 5 (by decide)⟩

/-- C10: in a consistent registry, a repository maps to a session in
`active_repos` exactly when that session holds a live handle on that
repository; consistency is preserved by `run` (which inserts into both
maps together on success), by the exit path (which removes from both maps
together, called with the repo the handle was registered under) and by
`cancel`. -/
theorem c10_registry_consistency (s : RalphManagerInner) (sid rid sid2 rid2 sid3 : Uuid)
    (spawn : SpawnOutcome) (w : Option ExitStatus) (hcons : Consistent s) :
    (∀ r sess, mapLookup r s.active_repos = some sess ↔
        Option.map ProcessHandle.repo_id (mapLookup sess s.processes) = some r) ∧
    Consistent (run s sid rid spawn).2.1 ∧
    ((run s sid rid spawn).1 = .ok () →
        mapLookup sid (run s sid rid spawn).2.1.processes = some { repo_id := rid } ∧
        mapLookup rid (run s sid rid spawn).2.1.active_repos = some sid) ∧
    (∀ hdl, mapLookup sid2 s.processes = some hdl → hdl.repo_id = rid2 →
        Consistent (handle_process_exit s sid2 rid2 w).1) ∧
    Consistent (cancel s sid3).2.1 := by
  refine ⟨consistent_lookup_iff hcons, run_preserves_consistent sid rid spawn hcons,
    ?_, ?_, cancel_preserves_consistent sid3 hcons⟩
  · intro hok
    cases hb : is_repo_busy s rid with
    | true => simp [run, hb] at hok
    | false =>
        cases hr : is_session_running s sid with
        | true => simp [run, hb, hr] at hok
        | false =>
            cases spawn with
            | notFound => simp [run, hb, hr] at hok
            | failed e => simp [run, hb, hr] at hok
            | ok =>
                constructor
                · simp [run, hb, hr, mapLookup_mapInsert_self]
                · simp [run, hb, hr, mapLookup_mapInsert_self]
  · intro hdl hlk hrep
    refine exit_preserves_consistent w hcons ?_
    intro hdl2 hl2
    rw [hlk] at hl2
    obtain rfl : hdl = hdl2 := Option.some.inj hl2
    exact hrep

theorem c10_registry_consistency_witness :
    Consistent busyState ∧
    (run busyState 2 5 .ok).1 = .ok () ∧
    mapLookup 2 (run busyState 2 5 .ok).2.1.processes = some { repo_id := 5 } ∧
    mapLookup 5 (run busyState 2 5 .ok).2.1.active_repos = some 2 ∧
    Consistent (handle_process_exit busyState 1 0 none).1 := by
  have h := c10_registry_consistency busyState 2 5 1 0 1 .ok none (by decide)
  have hrun := h.2.2.1 (by decide)
  exact ⟨by decide, by decide, hrun.1, hrun.2,
    h.2.2.2.1 { repo_id := 0 } (by decide) rfl⟩

/-- C7: `classify_clone_error` maps the SSH class to `SshAuthFailed`, the
HTTP class to `HttpsAuthFailed`, the network class to `NetworkError` and
every other class to `OperationFailed`; the help steps surfaced for the
result are non-empty exactly for the two authentication kinds. -/
theorem c7_classify_clone_error (err : Git2Error) :
    (err.errorClass = .ssh →
        classify_clone_error err = .SshAuthFailed err.message sshHelpSteps) ∧
    (err.errorClass = .http →
        classify_clone_error err = .HttpsAuthFailed err.message httpsHelpSteps) ∧
    (err.errorClass = .net →
        classify_clone_error err = .NetworkError err.message) ∧
    (err.errorClass ≠ .ssh → err.errorClass ≠ .http → err.errorClass ≠ .net →
        classify_clone_error err = .OperationFailed err.message) ∧
    ((cloneErrorMessageSteps (classify_clone_error err)).2 ≠ [] ↔
        err.errorClass = .ssh ∨ err.errorClass = .http) := by
  obtain ⟨c, m⟩ := err
  cases c <;>
    simp [classify_clone_error, cloneErrorMessageSteps, sshHelpSteps, httpsHelpSteps]

theorem c7_classify_clone_error_witness :
    (Git2Error.mk .ssh ("denied")).errorClass = .ssh ∧
    classify_clone_error ⟨.ssh, "denied"⟩ = .SshAuthFailed ("denied") sshHelpSteps ∧
    (Git2Error.mk .os ("io")).errorClass ≠ .ssh ∧
    classify_clone_error ⟨.os, "io"⟩ = .OperationFailed ("io") := by
  refine ⟨rfl, (c7_classify_clone_error ⟨.ssh, "denied"⟩).1 rfl, by decide, ?_⟩
  exact (c7_classify_clone_error ⟨.os, "io"⟩).2.2.2.1 (by decide) (by decide) (by decide)

/-- C9: `extract_repo_name` strips trailing slashes and a trailing `.git`
before extracting the segment after the last slash (after the last colon
for SSH-style URLs): both spec examples and the stripping variants
evaluate to `repo`. -/
theorem c9_extract_repo_name :
    extract_repo_name ("https://host/user/repo.git") = .ok ("repo") ∧
    extract_repo_name ("git@host:user/repo.git") = .ok ("repo") ∧
    extract_repo_name ("https://host/user/repo/") = .ok ("repo") ∧
    extract_repo_name ("https://host/user/repo") = .ok ("repo") ∧
    extract_repo_name ("git@host:repo.git") = .ok ("repo") ∧
    extract_repo_name ("git@host:user/repo") = .ok ("repo") := by
  decide

/-! ### C8: lossy progress relay -/

theorem runTransferCallbacks_all (ps : List CloneProgress) :
    ∀ q, ((runTransferCallbacks q ps).2.all (fun b => b)) = true := by
  induction ps with
  | nil => intro q; rfl
  | cons p rest ih =>
      intro q
      simp [runTransferCallbacks, transferCallback, ih]

theorem runTransferCallbacks_queue (ps : List CloneProgress) :
    ∀ q, (runTransferCallbacks q ps).1 = q ++ ps.take (channelCapacity - q.length) := by
  induction ps with
  | nil => intro q; simp [runTransferCallbacks]
  | cons p rest ih =>
      intro q
      by_cases hlen : q.length < channelCapacity
      · have hstep : trySend q p = q ++ [p] := by simp [trySend, hlen]
        have harith : channelCapacity - q.length = (channelCapacity - (q.length + 1)) + 1 := by
          omega
        simp only [runTransferCallbacks, transferCallback, hstep]
        rw [ih (q ++ [p])]
        simp only [List.length_append, List.length_cons, List.length_nil]
        rw [harith, List.take_succ_cons, List.append_assoc]
        rfl
      · have hstep : trySend q p = q := by simp [trySend, hlen]
        have h0 : channelCapacity - q.length = 0 := by omega
        simp only [runTransferCallbacks, transferCallback, hstep]
        rw [ih q, h0]
        simp [h0]

/-- C8: the progress callback never stalls or aborts the clone — every
callback invocation enqueues with a non-blocking send (dropping the
snapshot beyond the channel capacity of 32) and returns continue, and the
clone outcome is the same whatever snapshot sequence the transfer
produces. -/
theorem c8_lossy_progress (snapshots : List CloneProgress)
    (cloneResult : Except Git2Error Unit) :
    (clone_with_progress snapshots cloneResult).1 =
      (clone_with_progress [] cloneResult).1 ∧
    ((runTransferCallbacks [] snapshots).2.all (fun b => b)) = true ∧
    (clone_with_progress snapshots cloneResult).2 = snapshots.take channelCapacity := by
  refine ⟨rfl, runTransferCallbacks_all snapshots [], ?_⟩
  have h := runTransferCallbacks_queue snapshots []
  simpa [clone_with_progress] using h

/-- C4: after pre-validation, the clone SSE stream is the drained progress
events followed by exactly one terminal event, and that terminal event is
`complete` precisely when the clone task returned success and the
repository record insertion succeeded. -/
theorem c4_clone_stream_terminality (drained : List CloneProgress)
    (task : JoinOutcome) (ins : Except String Repo) (destDisplay : String) :
    ∃ t, cloneStreamEvents drained task ins destDisplay =
        drained.map CloneEvent.progress ++ [t] ∧
      t.isTerminal = true ∧
      (t.isComplete = true ↔
        task = JoinOutcome.ok (.ok ()) ∧ ∃ repo, ins = .ok repo) := by
  cases task with
  | ok r =>
      cases r with
      | ok u =>
          cases u
          cases ins with
          | ok repo => exact ⟨_, rfl, rfl, by simp [CloneEvent.isComplete]⟩
          | error e => exact ⟨_, rfl, rfl, by simp [CloneEvent.isComplete]⟩
      | error ce => exact ⟨_, rfl, rfl, by simp [CloneEvent.isComplete]⟩
  | panicked m => exact ⟨_, rfl, rfl, by simp [CloneEvent.isComplete]⟩

/-! ### C2: the busy-check / reserve sequence under interleaving -/

/-- The interleaving in which two `run` calls for the same repository both
pass both map checks (each check is its own read-lock acquisition) before
either registers: A checks the repo, B checks the repo, A checks the
session, B checks the session, A spawns and registers, B spawns and
registers. -/
def raceSchedule : List Bool := [true, false, true, false, true, true, false, false]

/-- End state of the two interleaved `run` calls on repository 0. -/
def raceOutcome : RalphManagerInner × RunTask × RunTask :=
  runTwo emptyState
    { session_id := 1, repo_id := 0, pc := .checkRepo, result := none }
    { session_id := 2, repo_id := 0, pc := .checkRepo, result := none }
    raceSchedule

/-- C2: the busy-check-then-reserve sequence of `run` is not atomic — the
two map checks and the registration happen under three separate lock
acquisitions, so two concurrent `run` calls on the same repository can
interleave such that both return Ok and both register, breaking the
exclusivity invariant; under atomic (sequential) execution the second call
is rejected with `RepoBusy`. -/
theorem c2_check_then_reserve_race :
    raceOutcome.2.1.result = some (.ok ()) ∧
    raceOutcome.2.2.result = some (.ok ()) ∧
    ¬ ExclusivePerRepo raceOutcome.1 ∧
    ¬ Consistent raceOutcome.1 ∧
    (run (run emptyState 1 0 .ok).2.1 2 0 .ok).1 = .error (.RepoBusy 0) := by
  decide

/-! ### C6: output fidelity of the two concurrent readers

The two line-reader tasks run concurrently; the effect sequence the
orchestrator produces is some interleaving of the two readers' per-stream
effect sequences.  `Interleave m a b` says `m` is an order-preserving
merge of `a` and `b`. -/

inductive Interleave {α : Type} : List α → List α → List α → Prop where
  | nil : Interleave [] [] []
  | left {m a b : List α} (x : α) : Interleave m a b → Interleave (x :: m) (x :: a) b
  | right {m a b : List α} (x : α) : Interleave m a b → Interleave (x :: m) a (x :: b)

/-- The line persisted by an effect, when it is a persist of this stream. -/
def persistedLineOf (st : OutputStream) : Effect → Option String
  | .persistOutput _ s c => if s = st then some c else none
  | _ => none

/-- The line broadcast by an effect, when it is a broadcast of this stream. -/
def broadcastLineOf (st : OutputStream) : Effect → Option String
  | .broadcastOutput _ s c => if s = st then some c else none
  | _ => none

/-- The output records persisted for one stream, in order. -/
def persistedLines (st : OutputStream) (evs : List Effect) : List String :=
  evs.filterMap (persistedLineOf st)

/-- The output events broadcast for one stream, in order. -/
def broadcastLines (st : OutputStream) (evs : List Effect) : List String :=
  evs.filterMap (broadcastLineOf st)

def isPersistOutput (st : OutputStream) : Effect → Bool :=
  fun e => (persistedLineOf st e).isSome

def isBroadcastOutput (st : OutputStream) : Effect → Bool :=
  fun e => (broadcastLineOf st e).isSome

theorem interleave_swap {α : Type} {m a b : List α} (h : Interleave m a b) :
    Interleave m b a := by
  induction h with
  | nil => exact .nil
  | left x h ih => exact .right x ih
  | right x h ih => exact .left x ih

theorem interleave_filterMap {α β : Type} (f : α → Option β) {m a b : List α}
    (h : Interleave m a b) :
    (∀ x ∈ b, f x = none) → m.filterMap f = a.filterMap f := by
  induction h with
  | nil => intro _; rfl
  | left x h ih =>
      intro hb
      simp only [List.filterMap_cons]
      cases f x <;> simp [ih hb]
  | right x h ih =>
      intro hb
      have hx : f x = none := hb x (List.mem_cons_self _ _)
      simp only [List.filterMap_cons, hx]
      exact ih (fun y hy => hb y (List.mem_cons_of_mem _ hy))

theorem interleave_countP {α : Type} (p : α → Bool) {m a b : List α}
    (h : Interleave m a b) : m.countP p = a.countP p + b.countP p := by
  induction h with
  | nil => rfl
  | left x h ih =>
      simp only [List.countP_cons, ih]
      omega
  | right x h ih =>
      simp only [List.countP_cons, ih]
      omega

theorem interleave_take {α : Type} {m a b : List α} (h : Interleave m a b) :
    ∀ n, ∃ i j, Interleave (m.take n) (a.take i) (b.take j) := by
  induction h with
  | nil =>
      intro n
      exact ⟨0, 0, by simpa [List.take_nil] using Interleave.nil⟩
  | left x h ih =>
      intro n
      cases n with
      | zero => exact ⟨0, 0, .nil⟩
      | succ n =>
          obtain ⟨i, j, hij⟩ := ih n
          exact ⟨i + 1, j, by simpa [List.take_succ_cons] using Interleave.left x hij⟩
  | right x h ih =>
      intro n
      cases n with
      | zero => exact ⟨0, 0, .nil⟩
      | succ n =>
          obtain ⟨i, j, hij⟩ := ih n
          exact ⟨i, j + 1, by simpa [List.take_succ_cons] using Interleave.right x hij⟩

theorem reader_loop_persisted (sid : Uuid) (st : OutputStream) (ls : List String) :
    (reader_loop sid st ls).filterMap (persistedLineOf st) = ls := by
  induction ls with
  | nil => rfl
  | cons l rest ih =>
      simp [reader_loop, List.filterMap_cons, persistedLineOf, broadcastLineOf, ih]

theorem reader_loop_broadcast (sid : Uuid) (st : OutputStream) (ls : List String) :
    (reader_loop sid st ls).filterMap (broadcastLineOf st) = ls := by
  induction ls with
  | nil => rfl
  | cons l rest ih =>
      simp [reader_loop, List.filterMap_cons, persistedLineOf, broadcastLineOf, ih]

theorem reader_loop_other_none (sid : Uuid) {st st2 : OutputStream} (hne : st2 ≠ st)
    (ls : List String) :
    ∀ x ∈ reader_loop sid st2 ls,
      persistedLineOf st x = none ∧ broadcastLineOf st x = none := by
  induction ls with
  | nil => intro x hx; simp [reader_loop] at hx
  | cons l rest ih =>
      intro x hx
      simp only [reader_loop, List.mem_cons] at hx
      rcases hx with rfl | rfl | hx
      · simp [persistedLineOf, broadcastLineOf, hne]
      · simp [persistedLineOf, broadcastLineOf, hne]
      · exact ih x hx

theorem reader_loop_count_take (sid : Uuid) (st : OutputStream) (ls : List String) :
    ∀ i, ((reader_loop sid st ls).take i).countP (isBroadcastOutput st) ≤
        ((reader_loop sid st ls).take i).countP (isPersistOutput st) := by
  induction ls with
  | nil => intro i; simp [reader_loop]
  | cons l rest ih =>
      intro i
      match i with
      | 0 => simp
      | 1 =>
          simp [reader_loop, List.take_succ_cons, List.countP_cons,
            isPersistOutput, isBroadcastOutput, persistedLineOf, broadcastLineOf]
      | i + 2 =>
          have hih := ih i
          simp only [reader_loop, List.take_succ_cons, List.countP_cons,
            isPersistOutput, isBroadcastOutput, persistedLineOf, broadcastLineOf,
            if_pos rfl, Option.isSome_some, Option.isSome_none]
          simp only [isPersistOutput, isBroadcastOutput] at hih
          omega

/-- C6: for any interleaving of the two readers' effect sequences, exactly
the stdout lines are persisted under the stdout tag and exactly the stderr
lines under the stderr tag, each stream in emission order (and likewise
broadcast); and in every prefix of the merged sequence a stream's
broadcasts never outnumber its persists — each line is persisted before it
is broadcast. -/
theorem c6_output_fidelity (sid : Uuid) (ls1 ls2 : List String) (merged : List Effect)
    (h : Interleave merged (reader_loop sid .Stdout ls1) (reader_loop sid .Stderr ls2)) :
    persistedLines .Stdout merged = ls1 ∧
    persistedLines .Stderr merged = ls2 ∧
    broadcastLines .Stdout merged = ls1 ∧
    broadcastLines .Stderr merged = ls2 ∧
    (∀ n, ((merged.take n).countP (isBroadcastOutput .Stdout) ≤
        (merged.take n).countP (isPersistOutput .Stdout))) ∧
    (∀ n, ((merged.take n).countP (isBroadcastOutput .Stderr) ≤
        (merged.take n).countP (isPersistOutput .Stderr))) := by
  have hswap := interleave_swap h
  have hno1 := reader_loop_other_none sid
    (show OutputStream.Stderr ≠ .Stdout from by decide) ls2
  have hno2 := reader_loop_other_none sid
    (show OutputStream.Stdout ≠ .Stderr from by decide) ls1
  refine ⟨?_, ?_, ?_, ?_, ?_, ?_⟩
  · rw [persistedLines, interleave_filterMap _ h (fun x hx => (hno1 x hx).1)]
    exact reader_loop_persisted sid .Stdout ls1
  · rw [persistedLines, interleave_filterMap _ hswap (fun x hx => (hno2 x hx).1)]
    exact reader_loop_persisted sid .Stderr ls2
  · rw [broadcastLines, interleave_filterMap _ h (fun x hx => (hno1 x hx).2)]
    exact reader_loop_broadcast sid .Stdout ls1
  · rw [broadcastLines, interleave_filterMap _ hswap (fun x hx => (hno2 x hx).2)]
    exact reader_loop_broadcast sid .Stderr ls2
  · intro n
    obtain ⟨i, j, hij⟩ := interleave_take h n
    rw [interleave_countP (isBroadcastOutput .Stdout) hij,
        interleave_countP (isPersistOutput .Stdout) hij]
    have hz1 : ((reader_loop sid .Stderr ls2).take j).countP
        (isBroadcastOutput .Stdout) = 0 := by
      rw [List.countP_eq_zero]
      intro x hx
      have hn := (hno1 x (List.mem_of_mem_take hx)).2
      simp [isBroadcastOutput, hn]
    have hz2 : ((reader_loop sid .Stderr ls2).take j).countP
        (isPersistOutput .Stdout) = 0 := by
      rw [List.countP_eq_zero]
      intro x hx
      have hn := (hno1 x (List.mem_of_mem_take hx)).1
      simp [isPersistOutput, hn]
    rw [hz1, hz2]
    simpa using reader_loop_count_take sid .Stdout ls1 i
  · intro n
    obtain ⟨i, j, hij⟩ := interleave_take h n
    rw [interleave_countP (isBroadcastOutput .Stderr) hij,
        interleave_countP (isPersistOutput .Stderr) hij]
    have hz1 : ((reader_loop sid .Stdout ls1).take i).countP
        (isBroadcastOutput .Stderr) = 0 := by
      rw [List.countP_eq_zero]
      intro x hx
      have hn := (hno2 x (List.mem_of_mem_take hx)).2
      simp [isBroadcastOutput, hn]
    have hz2 : ((reader_loop sid .Stdout ls1).take i).countP
        (isPersistOutput .Stderr) = 0 := by
      rw [List.countP_eq_zero]
      intro x hx
      have hn := (hno2 x (List.mem_of_mem_take hx)).1
      simp [isPersistOutput, hn]
    rw [hz1, hz2]
    simpa using reader_loop_count_take sid .Stderr ls2 j

/-- A concrete merge of a one-line stdout reader and a one-line stderr
reader. -/
def mergedSample : List Effect :=
  [.persistOutput 1 .Stdout ("a"), .broadcastOutput 1 .Stdout ("a"),
   .persistOutput 1 .Stderr ("b"), .broadcastOutput 1 .Stderr ("b")]

theorem c6_output_fidelity_witness :
    Interleave mergedSample (reader_loop 1 .Stdout ["a"]) (reader_loop 1 .Stderr ["b"]) ∧
    persistedLines .Stdout mergedSample = ["a"] ∧
    persistedLines .Stderr mergedSample = ["b"] :=
  have hI : Interleave mergedSample
      (reader_loop 1 .Stdout ["a"]) (reader_loop 1 .Stderr ["b"]) :=
    .left _ (.left _ (.right _ (.right _ .nil)))
  ⟨hI, (c6_output_fidelity 1 ["a"] ["b"] mergedSample hI).1,
    (c6_output_fidelity 1 ["a"] ["b"] mergedSample hI).2.1⟩

end Ralphcity
